import Mathlib

/-!
# Student store service (`main.go`, `seeder.go`)

A shallow embedding of the in-memory student store, of the HTTP handlers built
on it and of the seeder's student generator, followed by theorems about them.

Modelling conventions.

* Go `int` is the 64-bit two's-complement integer of the usual build targets.
  Values are carried as `Int`; the one arithmetic operation of the store,
  `s.nextID++`, wraps around through `wrapInt`.
* `map[int]Student` is a finite map without order: `Finmap`.
* A method that mutates its receiver returns the new store next to its result.
* The reader/writer mutex only serialises calls; every method is modelled as
  one atomic step of a sequential store.
* A handler receives the current store, the `{id}` path variable (when the
  route has one) and the outcome of decoding the request body; it returns the
  response together with the store it leaves behind.
* The results of `rand.Intn` are arguments of the function that draws them.
-/

set_option autoImplicit false

/-! ## Data model -/

/-- The `Student` struct. -/
structure Student where
  ID : Int
  Name : String
  Age : Int
  Email : String
deriving DecidableEq

/-- The zero value of `Student`, which a failed map lookup yields. -/
def Student.zero : Student := { ID := 0, Name := "", Age := 0, Email := "" }

/-- The `StudentStore` struct, without its mutex. -/
structure StudentStore where
  students : Finmap (fun _ : Int => Student)
  nextID : Int
deriving DecidableEq

/-- Smallest value of a 64-bit `int`. -/
def minInt : Int := -(2 ^ 63)

/-- Largest value of a 64-bit `int`. -/
def maxInt : Int := 2 ^ 63 - 1

/-- Two's-complement wrap-around of a mathematical integer into the range of a 64-bit
`int`: the value Go computes for an overflowing signed operation. -/
def wrapInt (x : Int) : Int := (x + 2 ^ 63) % 2 ^ 64 - 2 ^ 63

/-! ## The store -/

/-- `NewStudentStore`: an empty map and the counter at 1. -/
def NewStudentStore : StudentStore := { students := ∅, nextID := 1 }

/-- `(*StudentStore).Add`: stamps the student with the counter value, stores it under
that key, increments the counter and returns the key. -/
def StudentStore.Add (s : StudentStore) (student : Student) : Int × StudentStore :=
  let student := { student with ID := s.nextID }
  let students := s.students.insert student.ID student
  (student.ID, { students := students, nextID := wrapInt (s.nextID + 1) })

/-- `(*StudentStore).Get`: the comma-ok map lookup. -/
def StudentStore.Get (s : StudentStore) (id : Int) : Student × Bool :=
  match s.students.lookup id with
  | some student => (student, true)
  | none => (Student.zero, false)

/-- `make([]Student, len, cap)`: a slice of `len` zero values; the capacity does not
show in the value. -/
def makeStudents (len _cap : Nat) : List Student := List.replicate len Student.zero

/-- `(*StudentStore).GetAll`. The `range` clause of the source names the slice
`students` that was just made, not the map `s.students`; Go evaluates that operand
once, before the first iteration. -/
def StudentStore.GetAll (s : StudentStore) : List Student :=
  let students := makeStudents 0 s.students.keys.card
  students.foldl (fun students student => students ++ [student]) students

/-- `(*StudentStore).Update`. -/
def StudentStore.Update (s : StudentStore) (id : Int) (student : Student) :
    Bool × StudentStore :=
  match s.students.lookup id with
  | none => (false, s)
  | some _ =>
    let student := { student with ID := id }
    (true, { s with students := s.students.insert id student })

/-- `(*StudentStore).Delete`. -/
def StudentStore.Delete (s : StudentStore) (id : Int) : Bool × StudentStore :=
  match s.students.lookup id with
  | none => (false, s)
  | some _ => (true, { s with students := s.students.erase id })

/-! ## Sequences of store calls -/

/-- One call of a store method, with its arguments. -/
inductive Op where
  | add (student : Student)
  | get (id : Int)
  | getAll
  | update (id : Int) (student : Student)
  | delete (id : Int)
deriving DecidableEq

/-- What a store call returns. -/
inductive Ret where
  | id (n : Int)
  | student (s : Student) (ok : Bool)
  | students (l : List Student)
  | found (ok : Bool)
deriving DecidableEq

/-- Performs one call. -/
def StudentStore.apply (s : StudentStore) : Op → Ret × StudentStore
  | Op.add student => let r := s.Add student; (Ret.id r.1, r.2)
  | Op.get id => let r := s.Get id; (Ret.student r.1 r.2, s)
  | Op.getAll => (Ret.students s.GetAll, s)
  | Op.update id student => let r := s.Update id student; (Ret.found r.1, r.2)
  | Op.delete id => let r := s.Delete id; (Ret.found r.1, r.2)

/-- Performs the calls from left to right; returns what each call returned, in call
order, and the final store. -/
def StudentStore.run (s : StudentStore) : List Op → List Ret × StudentStore
  | [] => ([], s)
  | op :: ops =>
    let r := s.apply op
    let rest := r.2.run ops
    (r.1 :: rest.1, rest.2)

/-- The ids returned by the `Add` calls of a trace, in call order. -/
def addedIds : List Ret → List Int
  | [] => []
  | Ret.id n :: rs => n :: addedIds rs
  | _ :: rs => addedIds rs

/-- Number of `Add` calls in a sequence of calls. -/
def countAdds : List Op → Nat
  | [] => 0
  | Op.add _ :: ops => countAdds ops + 1
  | _ :: ops => countAdds ops

/-! ## Library functions used by the handlers -/

/-- `strconv.Atoi` (Go standard library): an optional sign `+` or `-` followed by one
or more ASCII decimal digits, whose value fits a 64-bit `int`. Anything else is an
error (`none`): the handlers only test whether the error is nil. -/
def Atoi (s : String) : Option Int :=
  let cs := s.toList
  let signed : Bool × List Char :=
    match cs with
    | '-' :: rest => (true, rest)
    | '+' :: rest => (false, rest)
    | _ => (false, cs)
  let digits := signed.2
  if digits.isEmpty then none
  else if digits.all Char.isDigit then
    let n : Int := digits.foldl (fun acc c => acc * 10 + ((c.toNat - 48 : Nat) : Int)) 0
    let v := if signed.1 then -n else n
    if minInt ≤ v ∧ v ≤ maxInt then some v else none
  else none

/-- An operand of `fmt.Sprintf`: the handlers pass strings and ints. -/
inductive FmtArg where
  | str (s : String)
  | int (n : Int)
deriving DecidableEq

/-- Go type name of an operand, as `fmt` prints it in its error markers. -/
def FmtArg.typeName : FmtArg → String
  | FmtArg.str _ => "string"
  | FmtArg.int _ => "int"

/-- Default rendering of an operand: a string as it is, an int in decimal with a
leading `-` when negative. -/
def FmtArg.plain : FmtArg → String
  | FmtArg.str s => s
  | FmtArg.int n => toString n

/-- One formatting directive applied to one operand. Of the verbs of `fmt` only `s`,
`d` and `v` are modelled; a verb that does not fit the operand prints the bad-verb
marker of `fmt`. -/
def fmtVerb (verb : Char) (a : FmtArg) : String :=
  match verb, a with
  | 's', FmtArg.str s => s
  | 'v', FmtArg.str s => s
  | 'd', FmtArg.int n => toString n
  | 'v', FmtArg.int n => toString n
  | _, _ => "%!" ++ verb.toString ++ "(" ++ a.typeName ++ "=" ++ a.plain ++ ")"

/-- Walks the format: literal characters are copied, `%%` is a percent sign, any other
`%x` consumes the next operand. Directives with flags, width or precision are not
modelled (the program uses none). -/
def sprintfAux : List Char → List FmtArg → String
  | [], [] => ""
  | [], a :: args =>
    "%!(EXTRA " ++ ", ".intercalate ((a :: args).map fun x => x.typeName ++ "=" ++ x.plain)
      ++ ")"
  | ['%'], args => "%!(NOVERB)" ++ sprintfAux [] args
  | '%' :: '%' :: rest, args => "%" ++ sprintfAux rest args
  | '%' :: verb :: rest, [] => "%!" ++ verb.toString ++ "(MISSING)" ++ sprintfAux rest []
  | '%' :: verb :: rest, a :: args => fmtVerb verb a ++ sprintfAux rest args
  | c :: rest, args => c.toString ++ sprintfAux rest args

/-- `fmt.Sprintf` on string and int operands. -/
def Sprintf (format : String) (args : List FmtArg) : String :=
  sprintfAux format.toList args

/-! ## HTTP handlers -/

/-- What a handler writes as the response body. JSON values are kept as the Go value
handed to the encoder. -/
inductive Body where
  | empty
  | text (msg : String)
  | jsonIntMap (m : List (String × Int))
  | jsonStrMap (m : List (String × String))
  | jsonStudent (s : Student)
  | jsonStudents (l : List Student)
deriving DecidableEq

/-- Status code and body of a response. A handler that writes a body without calling
`WriteHeader` answers 200. -/
structure Response where
  status : Nat
  body : Body
deriving DecidableEq

/-- `http.Error`: the status code with a plain-text message. -/
def httpError (msg : String) (code : Nat) : Response := { status := code, body := Body.text msg }

/-- The field validation shared by `createStudent` and `updateStudent`: true when the
request is to be rejected. -/
def invalidFields (student : Student) : Bool :=
  student.Name == "" || decide (student.Age ≤ 0) || student.Email == ""

/-- `createStudent`. `body` is the outcome of decoding the request body into a
`Student` (`none` when the decoder returns an error). -/
def createStudent (store : StudentStore) (body : Option Student) : Response × StudentStore :=
  match body with
  | none => (httpError "Invalid Request Body" 400, store)
  | some student =>
    if invalidFields student then (httpError "Invalid Student Data" 400, store)
    else
      let r := store.Add student
      ({ status := 201, body := Body.jsonIntMap [("id", r.1)] }, r.2)

/-- `getStudents`. -/
def getStudents (store : StudentStore) : Response × StudentStore :=
  let students := store.GetAll
  ({ status := 200, body := Body.jsonStudents students }, store)

/-- `getStudent`. `idVar` is the `{id}` path variable. -/
def getStudent (store : StudentStore) (idVar : String) : Response × StudentStore :=
  match Atoi idVar with
  | none => (httpError "Invalid student ID" 400, store)
  | some id =>
    let r := store.Get id
    if !r.2 then (httpError "Student not found" 404, store)
    else ({ status := 200, body := Body.jsonStudent r.1 }, store)

/-- `updateStudent`. -/
def updateStudent (store : StudentStore) (idVar : String) (body : Option Student) :
    Response × StudentStore :=
  match Atoi idVar with
  | none => (httpError "Invalid student id" 400, store)
  | some id =>
    match body with
    | none => (httpError "Invalid request body" 400, store)
    | some student =>
      if invalidFields student then (httpError "Invalid request body" 400, store)
      else
        let r := store.Update id student
        if !r.1 then (httpError "Student not found" 404, r.2)
        else ({ status := 200, body := Body.empty }, r.2)

/-- `deleteStudent`. -/
def deleteStudent (store : StudentStore) (idVar : String) : Response × StudentStore :=
  match Atoi idVar with
  | none => (httpError "Invalid student ID" 400, store)
  | some id =>
    let r := store.Delete id
    if !r.1 then (httpError "Student not found" 404, r.2)
    else ({ status := 200, body := Body.empty }, r.2)

/-- `generateSummary`. -/
def generateSummary (store : StudentStore) (idVar : String) : Response × StudentStore :=
  match Atoi idVar with
  | none => (httpError "Invalid Student ID" 400, store)
  | some id =>
    let r := store.Get id
    if !r.2 then (httpError "Student not found" 404, store)
    else
      let summary := Sprintf "Student %s is %d years old and can be contacted at %s."
        [FmtArg.str r.1.Name, FmtArg.int r.1.Age, FmtArg.str r.1.Email]
      ({ status := 200, body := Body.jsonStrMap [("summary", summary)] }, store)

/-! ## Seeder (`seeder.go`) -/

/-- The `firstNames` table. -/
def firstNames : List String :=
  ["John", "Jane", "Michael", "Emily", "David", "Sarah", "Robert", "Emma", "William", "Olivia"]

/-- The `lastNames` table. -/
def lastNames : List String :=
  ["Smith", "Johnson", "Brown", "Taylor", "Miller", "Anderson", "Wilson", "Moore", "Jackson",
    "Martin"]

/-- `generateRandomStudent`. The three arguments are the results of its three
`rand.Intn` calls, in call order: `rand.Intn(n)` returns a value in `[0, n)`. -/
def generateRandomStudent (i : Fin firstNames.length) (j : Fin lastNames.length)
    (k : Fin 10) : Student :=
  let firstName := firstNames.get i
  let lastName := lastNames.get j
  let name := firstName ++ " " ++ lastName
  let age : Int := (k.val : Int) + 18
  let email := Sprintf "%s.%s@example.com" [FmtArg.str firstName, FmtArg.str lastName]
  { ID := 0, Name := name, Age := age, Email := email }

/-! ## Invariant and fixtures -/

/-- The data-model invariant: every key of the map is the `ID` field of its record. -/
def StudentStore.KeysMatchIds (st : StudentStore) : Prop :=
  ∀ (k : Int) (s : Student), st.students.lookup k = some s → s.ID = k

/-- Every key of the map is at least 1 and below the counter. -/
def StudentStore.KeysBelowCounter (st : StudentStore) : Prop :=
  1 ≤ st.nextID ∧ ∀ k : Int, k ∈ st.students → 1 ≤ k ∧ k < st.nextID

/-- The student every test of `main_test.go` adds first. -/
def johnDoe : Student := { ID := 0, Name := "John Doe", Age := 20, Email := "john@example.com" }

/-- The second student of `TestGetStudents`. -/
def janeDoe : Student := { ID := 0, Name := "Jane Doe", Age := 22, Email := "jane@example.com" }

/-- The replacement record of `TestUpdateStudent`, here carrying a foreign id. -/
def johnUpdated : Student :=
  { ID := 99, Name := "John Updated", Age := 21, Email := "john.updated@example.com" }

/-- The store most tests start from: a fresh store after `Add(johnDoe)`. -/
def storeWithJohn : StudentStore := (NewStudentStore.Add johnDoe).2

/-- The store of `TestGetStudents`: a fresh store after two `Add` calls. -/
def storeWithTwo : StudentStore := (storeWithJohn.Add janeDoe).2

/-- A short session: add, read, overwrite, delete, add again. -/
def sampleCalls : List Op :=
  [Op.add johnDoe, Op.getAll, Op.update 1 johnUpdated, Op.get 1, Op.delete 1, Op.add janeDoe]

/-- On a store whose counter is `first`: `n` rounds, each an `Add` followed by the
`Delete` of the id that `Add` has just handed out. -/
def addDeleteRounds (s : Student) : Int → Nat → List Op
  | _, 0 => []
  | first, n + 1 => Op.add s :: Op.delete first :: addDeleteRounds s (first + 1) n

/-- A session on a fresh store that never holds more than two records: `Add(johnDoe)`,
which is kept under id 1, then `n` rounds of `Add` and `Delete` of the new id. -/
def keepOneCalls (n : Nat) : List Op := Op.add johnDoe :: addDeleteRounds johnDoe 2 n

/-! ## Auxiliary lemmas -/

theorem wrapInt_of_mem_range (x : Int) (hlo : minInt ≤ x) (hhi : x ≤ maxInt) :
    wrapInt x = x := by
  unfold wrapInt
  unfold minInt at hlo
  unfold maxInt at hhi
  norm_num at hlo hhi ⊢
  omega

theorem nextID_Update (st : StudentStore) (id : Int) (s : Student) :
    (st.Update id s).2.nextID = st.nextID := by
  unfold StudentStore.Update
  cases st.students.lookup id <;> rfl

theorem nextID_Delete (st : StudentStore) (id : Int) :
    (st.Delete id).2.nextID = st.nextID := by
  unfold StudentStore.Delete
  cases st.students.lookup id <;> rfl

theorem run_append (ops₁ ops₂ : List Op) :
    ∀ st : StudentStore, st.run (ops₁ ++ ops₂) =
      ((st.run ops₁).1 ++ ((st.run ops₁).2.run ops₂).1, ((st.run ops₁).2.run ops₂).2) := by
  induction ops₁ with
  | nil => intro st; rfl
  | cons op ops ih =>
    intro st
    show ((st.apply op).1 :: ((st.apply op).2.run (ops ++ ops₂)).1,
      ((st.apply op).2.run (ops ++ ops₂)).2) = _
    rw [ih]
    rfl

theorem countAdds_replicate_add (n : Nat) (s : Student) :
    countAdds (List.replicate n (Op.add s)) = n := by
  induction n with
  | zero => rfl
  | succ n ih => simp [List.replicate_succ, countAdds, ih]

/-- A sequence of calls without `Add` returns no id. -/
theorem addedIds_run_of_countAdds_eq_zero (ops : List Op) :
    ∀ st : StudentStore, countAdds ops = 0 → addedIds (st.run ops).1 = [] := by
  induction ops with
  | nil => intro st _; rfl
  | cons op ops ih =>
    intro st h
    cases op with
    | add student => simp [countAdds] at h
    | get id => exact ih _ (by simpa [countAdds] using h)
    | getAll => exact ih _ (by simpa [countAdds] using h)
    | update id student => exact ih _ (by simpa [countAdds] using h)
    | delete id => exact ih _ (by simpa [countAdds] using h)

/-- While the counter stays in range it has advanced by the number of `Add` calls. -/
theorem nextID_run (ops : List Op) :
    ∀ st : StudentStore, minInt ≤ st.nextID → st.nextID + (countAdds ops : Int) ≤ maxInt →
      (st.run ops).2.nextID = st.nextID + (countAdds ops : Int) := by
  induction ops with
  | nil => intro st _ _; simp [StudentStore.run, countAdds]
  | cons op ops ih =>
    intro st hlo hhi
    cases op with
    | add student =>
      have hc : countAdds (Op.add student :: ops) = countAdds ops + 1 := rfl
      rw [hc] at hhi ⊢
      push_cast at hhi ⊢
      have hnext : (st.Add student).2.nextID = st.nextID + 1 :=
        wrapInt_of_mem_range _ (by omega) (by omega)
      show ((st.Add student).2.run ops).2.nextID = _
      rw [ih (st.Add student).2 (by rw [hnext]; omega) (by rw [hnext]; omega), hnext]
      ring
    | get id => exact ih st hlo hhi
    | getAll => exact ih st hlo hhi
    | update id student =>
      have h := ih (st.Update id student).2
      rw [nextID_Update] at h
      exact h hlo hhi
    | delete id =>
      have h := ih (st.Delete id).2
      rw [nextID_Delete] at h
      exact h hlo hhi

/-- As long as the last id handed out is at most `maxInt`, the ids handed out are the
consecutive integers from the counter on. -/
theorem addedIds_run_eq (ops : List Op) :
    ∀ st : StudentStore, minInt ≤ st.nextID →
      st.nextID + (countAdds ops : Int) ≤ maxInt + 1 →
      addedIds (st.run ops).1 =
        (List.range (countAdds ops)).map (fun i : Nat => st.nextID + (i : Int)) := by
  induction ops with
  | nil => intro st _ _; rfl
  | cons op ops ih =>
    intro st hlo hhi
    cases op with
    | add student =>
      have hrun : addedIds (st.run (Op.add student :: ops)).1 =
          st.nextID :: addedIds ((st.Add student).2.run ops).1 := rfl
      rw [hrun]
      show _ = (List.range (countAdds ops + 1)).map _
      rw [List.range_succ_eq_map, List.map_cons, List.map_map]
      simp only [Nat.cast_zero, add_zero, List.cons.injEq, true_and]
      rcases Nat.eq_zero_or_pos (countAdds ops) with h0 | hpos
      · rw [addedIds_run_of_countAdds_eq_zero ops _ h0, h0]; rfl
      · have hc : countAdds (Op.add student :: ops) = countAdds ops + 1 := rfl
        rw [hc] at hhi
        push_cast at hhi
        have hnext : (st.Add student).2.nextID = st.nextID + 1 :=
          wrapInt_of_mem_range _ (by omega) (by omega)
        rw [ih (st.Add student).2 (by rw [hnext]; omega) (by rw [hnext]; omega), hnext]
        apply List.map_congr_left
        intro i _
        simp only [Function.comp, Nat.succ_eq_add_one]
        push_cast
        ring
    | get id => exact ih st hlo hhi
    | getAll => exact ih st hlo hhi
    | update id student =>
      have h := ih (st.Update id student).2
      rw [nextID_Update] at h
      exact h hlo hhi
    | delete id =>
      have h := ih (st.Delete id).2
      rw [nextID_Delete] at h
      exact h hlo hhi

/-- On a fresh store, the `Add` call that follows `maxInt` earlier ones returns
`minInt`. -/
theorem add_after_maxInt_adds (n : Nat) (s : Student) (hn : (n : Int) + 1 = maxInt) :
    ((NewStudentStore.run (List.replicate (n + 1) (Op.add s))).2.Add s).1 = minInt := by
  rw [List.replicate_succ', run_append]
  have h1 : (NewStudentStore.run (List.replicate n (Op.add s))).2.nextID = maxInt := by
    rw [nextID_run _ _ (by decide)
      (by rw [countAdds_replicate_add]; simp [NewStudentStore]; omega),
      countAdds_replicate_add]
    simp [NewStudentStore]; omega
  show wrapInt ((NewStudentStore.run (List.replicate n (Op.add s))).2.nextID + 1) = minInt
  rw [h1]
  decide

theorem keysMatchIds_new : NewStudentStore.KeysMatchIds := by
  intro k s h
  simp [NewStudentStore, Finmap.lookup_empty] at h

theorem keysMatchIds_insert (st : StudentStore) (id n : Int) (student : Student)
    (h : st.KeysMatchIds) :
    StudentStore.KeysMatchIds
      { students := st.students.insert id { student with ID := id }, nextID := n } := by
  intro k s hk
  by_cases hkid : k = id
  · subst hkid
    rw [Finmap.lookup_insert] at hk
    cases hk
    rfl
  · rw [Finmap.lookup_insert_of_ne _ hkid] at hk
    exact h k s hk

theorem keysMatchIds_Add (st : StudentStore) (student : Student) (h : st.KeysMatchIds) :
    (st.Add student).2.KeysMatchIds :=
  keysMatchIds_insert st st.nextID _ student h

theorem keysMatchIds_Update (st : StudentStore) (id : Int) (student : Student)
    (h : st.KeysMatchIds) : (st.Update id student).2.KeysMatchIds := by
  unfold StudentStore.Update
  cases st.students.lookup id with
  | none => exact h
  | some old => exact keysMatchIds_insert st id st.nextID student h

theorem keysMatchIds_Delete (st : StudentStore) (id : Int) (h : st.KeysMatchIds) :
    (st.Delete id).2.KeysMatchIds := by
  unfold StudentStore.Delete
  cases st.students.lookup id with
  | none => exact h
  | some old =>
    intro k s hk
    by_cases hkid : k = id
    · subst hkid
      simp [Finmap.lookup_erase] at hk
    · rw [show ({ st with students := st.students.erase id } : StudentStore).students
          = st.students.erase id from rfl, Finmap.lookup_erase_ne hkid] at hk
      exact h k s hk

theorem keysMatchIds_apply (st : StudentStore) (op : Op) (h : st.KeysMatchIds) :
    (st.apply op).2.KeysMatchIds := by
  cases op with
  | add student => exact keysMatchIds_Add st student h
  | get id => exact h
  | getAll => exact h
  | update id student => exact keysMatchIds_Update st id student h
  | delete id => exact keysMatchIds_Delete st id h

theorem keysMatchIds_run (ops : List Op) :
    ∀ st : StudentStore, st.KeysMatchIds → (st.run ops).2.KeysMatchIds := by
  induction ops with
  | nil => intro st h; exact h
  | cons op ops ih => intro st h; exact ih _ (keysMatchIds_apply st op h)

/-- The format string of `generateSummary` applied to a name, an age and an email. -/
theorem sprintf_summary (n e : String) (a : Int) :
    Sprintf "Student %s is %d years old and can be contacted at %s."
        [FmtArg.str n, FmtArg.int a, FmtArg.str e]
      = "Student " ++ n ++ " is " ++ toString a ++ " years old and can be contacted at "
          ++ e ++ "." := by
  simp only [Sprintf, sprintfAux, fmtVerb]
  apply String.ext
  simp [String.data_append, Char.toString]

/-! ## Store contract -/

/-- Claim C1: after `Add(s)` on any store, `Get` of the returned id on the resulting
store reports found, and the record has the name, age and email of `s` and the returned
id as its `ID`, whatever `ID` the argument carried. -/
theorem Add_then_Get (st : StudentStore) (s : Student) :
    ((st.Add s).2.Get (st.Add s).1).2 = true ∧
    ((st.Add s).2.Get (st.Add s).1).1.Name = s.Name ∧
    ((st.Add s).2.Get (st.Add s).1).1.Age = s.Age ∧
    ((st.Add s).2.Get (st.Add s).1).1.Email = s.Email ∧
    ((st.Add s).2.Get (st.Add s).1).1.ID = (st.Add s).1 := by
  simp [StudentStore.Add, StudentStore.Get, Finmap.lookup_insert]

/-- Claim C2, as stated, fails where the counter overflows: on a store whose counter is
the largest `int`, two `Add` calls with a `Delete` in between return `maxInt` and then
`minInt`, which is not an increasing sequence. -/
theorem addedIds_decrease_at_maxInt :
    addedIds ((StudentStore.run { students := ∅, nextID := 9223372036854775807 }
        [Op.add johnDoe, Op.delete 9223372036854775807, Op.add janeDoe]).1)
      = [9223372036854775807, -9223372036854775808] ∧
    ¬ List.Pairwise (fun a b : Int => a < b)
      (addedIds ((StudentStore.run { students := ∅, nextID := 9223372036854775807 }
        [Op.add johnDoe, Op.delete 9223372036854775807, Op.add janeDoe]).1)) := by
  decide

/-- Claim C2, amended: on a store whose counter is an `int` value, for every sequence of
calls whose last assigned id does not exceed `maxInt` (counter plus number of `Add`
calls at most `maxInt + 1`), the ids returned by the `Add` calls are strictly increasing
in call order; hence no id is returned twice, whatever was deleted in between. -/
theorem addedIds_strictly_increasing (st : StudentStore) (ops : List Op)
    (hlo : minInt ≤ st.nextID) (hhi : st.nextID + (countAdds ops : Int) ≤ maxInt + 1) :
    List.Pairwise (fun a b : Int => a < b) (addedIds (st.run ops).1) ∧
    (addedIds (st.run ops).1).Nodup := by
  have hlt : List.Pairwise (fun a b : Int => a < b) (addedIds (st.run ops).1) := by
    rw [addedIds_run_eq ops st hlo hhi, List.pairwise_map]
    exact (List.pairwise_lt_range _).imp (by intro a b h; omega)
  exact ⟨hlt, hlt.imp (fun h => ne_of_lt h)⟩

theorem addedIds_strictly_increasing_witness :
    minInt ≤ NewStudentStore.nextID ∧
    NewStudentStore.nextID + (countAdds sampleCalls : Int) ≤ maxInt + 1 ∧
    addedIds (NewStudentStore.run sampleCalls).1 = [1, 2] ∧
    List.Pairwise (fun a b : Int => a < b) (addedIds (NewStudentStore.run sampleCalls).1) :=
  ⟨by decide, by decide, by decide,
    (addedIds_strictly_increasing NewStudentStore sampleCalls (by decide) (by decide)).1⟩

/-- Claim C3, as stated, fails where the counter overflows: `Add` on a store whose
counter is the largest `int` leaves the counter at `minInt`, not one higher; and on a
fresh store the `Add` call number `2 ^ 63` returns `-2 ^ 63`. -/
theorem counter_wraps_at_maxInt :
    (StudentStore.Add { students := ∅, nextID := 9223372036854775807 } johnDoe).2.nextID
      = -9223372036854775808 ∧
    (StudentStore.Add { students := ∅, nextID := 9223372036854775807 } johnDoe).2.nextID
      ≠ 9223372036854775807 + 1 ∧
    ((NewStudentStore.run (List.replicate 9223372036854775807 (Op.add johnDoe))).2.Add
      johnDoe).1 = -9223372036854775808 :=
  ⟨by decide, by decide, add_after_maxInt_adds 9223372036854775806 johnDoe (by decide)⟩

/-- Claim C3, amended: `Add` is total and returns the counter value of the store it is
called on; it leaves the counter one higher whenever the counter was an `int` below
`maxInt`; and on a fresh store, whatever other calls are interleaved, the ids returned
by the `Add` calls are 1, 2, ..., as long as there are at most `maxInt` of them. -/
theorem Add_returns_counter (st : StudentStore) (s : Student) (ops : List Op) :
    (st.Add s).1 = st.nextID ∧
    (minInt ≤ st.nextID → st.nextID < maxInt → (st.Add s).2.nextID = st.nextID + 1) ∧
    ((countAdds ops : Int) ≤ maxInt →
      addedIds (NewStudentStore.run ops).1 =
        (List.range (countAdds ops)).map (fun i : Nat => (i : Int) + 1)) := by
  refine ⟨rfl, fun hlo hhi => wrapInt_of_mem_range _ (by omega) (by omega), fun hk => ?_⟩
  rw [addedIds_run_eq ops NewStudentStore (by decide)
    (by simpa [NewStudentStore, add_comm] using hk)]
  apply List.map_congr_left
  intro i _
  show (1 : Int) + i = i + 1
  ring

theorem Add_returns_counter_witness :
    (storeWithJohn.Add janeDoe).1 = 2 ∧
    minInt ≤ storeWithJohn.nextID ∧ storeWithJohn.nextID < maxInt ∧
    (storeWithJohn.Add janeDoe).2.nextID = storeWithJohn.nextID + 1 ∧
    (countAdds sampleCalls : Int) ≤ maxInt ∧
    addedIds (NewStudentStore.run sampleCalls).1 = [1, 2] :=
  ⟨(Add_returns_counter storeWithJohn janeDoe sampleCalls).1, by decide, by decide,
    (Add_returns_counter storeWithJohn janeDoe sampleCalls).2.1 (by decide) (by decide),
    by decide,
    (Add_returns_counter storeWithJohn janeDoe sampleCalls).2.2 (by decide)⟩

/-- Claim C4: `Update(id, s)` on a store holding `id` returns true; afterwards `Get(id)`
finds a record with the name, age and email of `s` and with `ID` equal to `id`, whatever
`ID` the argument carried; every other key keeps its lookup result and the counter is
unchanged. -/
theorem Update_present (st : StudentStore) (id : Int) (s : Student) (h : id ∈ st.students) :
    (st.Update id s).1 = true ∧
    ((st.Update id s).2.Get id).2 = true ∧
    ((st.Update id s).2.Get id).1.Name = s.Name ∧
    ((st.Update id s).2.Get id).1.Age = s.Age ∧
    ((st.Update id s).2.Get id).1.Email = s.Email ∧
    ((st.Update id s).2.Get id).1.ID = id ∧
    (∀ j : Int, j ≠ id →
      (st.Update id s).2.students.lookup j = st.students.lookup j) ∧
    (st.Update id s).2.nextID = st.nextID := by
  obtain ⟨old, hold⟩ := Finmap.mem_iff.mp h
  simp only [StudentStore.Update, hold, StudentStore.Get, Finmap.lookup_insert]
  refine ⟨trivial, trivial, trivial, trivial, trivial, trivial, ?_, trivial⟩
  intro j hj
  exact Finmap.lookup_insert_of_ne _ hj

theorem Update_present_witness :
    (1 : Int) ∈ storeWithTwo.students ∧
    (storeWithTwo.Update 1 johnUpdated).1 = true ∧
    (storeWithTwo.Update 1 johnUpdated).2.Get 1
      = ({ ID := 1, Name := "John Updated", Age := 21, Email := "john.updated@example.com" },
          true) ∧
    (storeWithTwo.Update 1 johnUpdated).2.students.lookup 2 = storeWithTwo.students.lookup 2 ∧
    (storeWithTwo.Update 1 johnUpdated).2.nextID = 3 :=
  ⟨by decide, (Update_present storeWithTwo 1 johnUpdated (by decide)).1, by decide,
    (Update_present storeWithTwo 1 johnUpdated (by decide)).2.2.2.2.2.2.1 2 (by decide),
    (Update_present storeWithTwo 1 johnUpdated (by decide)).2.2.2.2.2.2.2⟩

/-- Claim C5: `Update(id, s)` on a store that does not hold `id` returns false and
leaves the store as it was, map and counter alike. -/
theorem Update_absent (st : StudentStore) (id : Int) (s : Student) (h : id ∉ st.students) :
    st.Update id s = (false, st) := by
  simp [StudentStore.Update, Finmap.lookup_eq_none.mpr h]

theorem Update_absent_witness :
    (999 : Int) ∉ storeWithJohn.students ∧
    storeWithJohn.Update 999 johnUpdated = (false, storeWithJohn) :=
  ⟨by decide, Update_absent storeWithJohn 999 johnUpdated (by decide)⟩

/-- Claim C6: after `Delete(id)`, whether or not `id` was present, `Get(id)` on the
resulting store reports not found. -/
theorem Delete_then_Get (st : StudentStore) (id : Int) :
    ((st.Delete id).2.Get id).2 = false := by
  unfold StudentStore.Delete
  cases hl : st.students.lookup id with
  | none => simp [StudentStore.Get, hl]
  | some old => simp [StudentStore.Get, Finmap.lookup_erase]

/-- Claim C7: `Delete(id)` returns true exactly when `id` is a key of the map; when it
returns false the store is unchanged; when it returns true the key set is the old one
without `id`, every other key keeps its record and the counter is unchanged. -/
theorem Delete_effect (st : StudentStore) (id : Int) :
    ((st.Delete id).1 = true ↔ id ∈ st.students) ∧
    ((st.Delete id).1 = false → (st.Delete id).2 = st) ∧
    ((st.Delete id).1 = true →
      id ∉ (st.Delete id).2.students ∧
      (st.Delete id).2.students.keys = st.students.keys.erase id ∧
      (∀ j : Int, j ≠ id →
        (st.Delete id).2.students.lookup j = st.students.lookup j) ∧
      (st.Delete id).2.nextID = st.nextID) := by
  unfold StudentStore.Delete
  cases hl : st.students.lookup id with
  | none =>
    have hm : id ∉ st.students := Finmap.lookup_eq_none.mp hl
    simp [hm]
  | some old =>
    have hm : id ∈ st.students := Finmap.mem_of_lookup_eq_some hl
    refine ⟨by simp [hm], by simp,
      fun _ => ⟨Finmap.not_mem_erase_self, Finmap.keys_erase _ _, ?_, rfl⟩⟩
    intro j hj
    exact Finmap.lookup_erase_ne hj

theorem Delete_effect_witness :
    (storeWithTwo.Delete 1).1 = true ∧
    (storeWithTwo.Delete 1).2.students.keys = storeWithTwo.students.keys.erase 1 ∧
    (storeWithTwo.Delete 1).2.students.lookup 2 = storeWithTwo.students.lookup 2 ∧
    (storeWithTwo.Delete 1).2.nextID = 3 ∧
    (storeWithTwo.Delete 999).1 = false ∧
    (storeWithTwo.Delete 999).2 = storeWithTwo :=
  ⟨by decide,
    ((Delete_effect storeWithTwo 1).2.2 (by decide)).2.1,
    ((Delete_effect storeWithTwo 1).2.2 (by decide)).2.2.1 2 (by decide),
    ((Delete_effect storeWithTwo 1).2.2 (by decide)).2.2.2,
    by decide,
    (Delete_effect storeWithTwo 999).2.1 (by decide)⟩

/-- Claim C8 (defect in `GetAll`): on the store of `TestGetStudents`, which holds two
records, `GetAll` returns the empty slice, where the claim and the test expect two
records. -/
theorem GetAll_empty_on_two_records :
    storeWithTwo.students.keys.card = 2 ∧
    storeWithTwo.students.lookup 1 = some { johnDoe with ID := 1 } ∧
    storeWithTwo.students.lookup 2 = some { janeDoe with ID := 2 } ∧
    storeWithTwo.GetAll = [] ∧
    storeWithTwo.GetAll.length = 0 := by
  decide

/-- Claim C9: in every store reached from a fresh store by any sequence of `Add`, `Get`,
`GetAll`, `Update` and `Delete` calls with arbitrary arguments, every key of the map
holds a record whose `ID` is that key. -/
theorem key_eq_ID_of_reachable (ops : List Op) (k : Int) (s : Student)
    (h : (NewStudentStore.run ops).2.students.lookup k = some s) : s.ID = k :=
  keysMatchIds_run ops NewStudentStore keysMatchIds_new k s h

theorem key_eq_ID_of_reachable_witness :
    (NewStudentStore.run sampleCalls).2.students.lookup 2 = some { janeDoe with ID := 2 } ∧
    ({ janeDoe with ID := 2 } : Student).ID = 2 :=
  ⟨by decide, key_eq_ID_of_reachable sampleCalls 2 { janeDoe with ID := 2 } (by decide)⟩

/-! ## Summary handler -/

/-- Claim C10: when the path variable parses to an id under which the store holds a
record with name `n`, age `a` and email `e`, `generateSummary` answers 200 with the
summary "Student n is a years old and can be contacted at e." (the age in decimal), and
leaves the store as it was. -/
theorem generateSummary_present (st : StudentStore) (idVar : String) (id i a : Int)
    (n e : String) (hid : Atoi idVar = some id)
    (hrec : st.students.lookup id = some { ID := i, Name := n, Age := a, Email := e }) :
    generateSummary st idVar =
      ({ status := 200,
         body := Body.jsonStrMap [("summary",
           "Student " ++ n ++ " is " ++ toString a ++ " years old and can be contacted at "
             ++ e ++ ".")] }, st) := by
  simp only [generateSummary, hid, StudentStore.Get, hrec, sprintf_summary]
  rfl

theorem generateSummary_present_witness :
    Atoi "1" = some 1 ∧
    storeWithJohn.students.lookup 1
      = some { ID := 1, Name := "John Doe", Age := 20, Email := "john@example.com" } ∧
    generateSummary storeWithJohn "1"
      = ({ status := 200,
           body := Body.jsonStrMap [("summary",
             "Student John Doe is 20 years old and can be contacted at john@example.com.")] },
         storeWithJohn) :=
  ⟨by decide, by decide,
    generateSummary_present storeWithJohn "1" 1 1 20 "John Doe" "john@example.com"
      (by decide) (by decide)⟩

/-! ## Auxiliary lemmas for the handlers, the seeder and the key range -/

theorem invalidFields_eq_true_iff (s : Student) :
    invalidFields s = true ↔ (s.Name = "" ∨ s.Age ≤ 0 ∨ s.Email = "") := by
  simp [invalidFields, or_assoc]

theorem invalidFields_eq_false_iff (s : Student) :
    invalidFields s = false ↔ (s.Name ≠ "" ∧ 0 < s.Age ∧ s.Email ≠ "") := by
  simp [invalidFields, and_assoc]

/-- The format string of `generateRandomStudent` applied to two names. -/
theorem sprintf_email (f l : String) :
    Sprintf "%s.%s@example.com" [FmtArg.str f, FmtArg.str l]
      = f ++ "." ++ l ++ "@example.com" := by
  simp only [Sprintf, sprintfAux, fmtVerb]
  apply String.ext
  simp [String.data_append, Char.toString]

theorem keysBelowCounter_new : NewStudentStore.KeysBelowCounter :=
  ⟨by decide, fun k hk => absurd hk (Finmap.not_mem_empty)⟩

theorem keysBelowCounter_Add (st : StudentStore) (s : Student) (h : st.KeysBelowCounter)
    (hlt : st.nextID < maxInt) : (st.Add s).2.KeysBelowCounter := by
  obtain ⟨h1, hk⟩ := h
  have hmin : minInt ≤ 1 := by decide
  have hnext : (st.Add s).2.nextID = st.nextID + 1 :=
    wrapInt_of_mem_range _ (by omega) (by omega)
  refine ⟨by rw [hnext]; omega, fun k hmem => ?_⟩
  rw [hnext]
  have hmem' : k = st.nextID ∨ k ∈ st.students := Finmap.mem_insert.mp hmem
  rcases hmem' with rfl | hold
  · omega
  · have := hk k hold
    omega

theorem keysBelowCounter_Update (st : StudentStore) (id : Int) (s : Student)
    (h : st.KeysBelowCounter) : (st.Update id s).2.KeysBelowCounter := by
  unfold StudentStore.Update
  cases hl : st.students.lookup id with
  | none => exact h
  | some old =>
    refine ⟨h.1, fun k hmem => ?_⟩
    have hmem' : k = id ∨ k ∈ st.students := Finmap.mem_insert.mp hmem
    rcases hmem' with rfl | hold
    · exact h.2 k (Finmap.mem_of_lookup_eq_some hl)
    · exact h.2 k hold

theorem keysBelowCounter_Delete (st : StudentStore) (id : Int) (h : st.KeysBelowCounter) :
    (st.Delete id).2.KeysBelowCounter := by
  unfold StudentStore.Delete
  cases st.students.lookup id with
  | none => exact h
  | some old => exact ⟨h.1, fun k hmem => h.2 k (Finmap.mem_erase.mp hmem).2⟩

/-- The key range is kept by every sequence of calls that does not take the counter
past `maxInt`. -/
theorem keysBelowCounter_run (ops : List Op) :
    ∀ st : StudentStore, st.KeysBelowCounter → st.nextID + (countAdds ops : Int) ≤ maxInt →
      (st.run ops).2.KeysBelowCounter := by
  induction ops with
  | nil => intro st h _; exact h
  | cons op ops ih =>
    intro st h hhi
    cases op with
    | add student =>
      have hc : countAdds (Op.add student :: ops) = countAdds ops + 1 := rfl
      rw [hc] at hhi
      push_cast at hhi
      have hmin : minInt ≤ 1 := by decide
      have h1 := h.1
      have hnext : (st.Add student).2.nextID = st.nextID + 1 :=
        wrapInt_of_mem_range _ (by omega) (by omega)
      exact ih _ (keysBelowCounter_Add st student h (by omega))
        (by show (st.Add student).2.nextID + _ ≤ _; rw [hnext]; omega)
    | get id => exact ih st h hhi
    | getAll => exact ih st h hhi
    | update id student =>
      refine ih _ (keysBelowCounter_Update st id student h) ?_
      show (st.Update id student).2.nextID + _ ≤ _
      rw [nextID_Update]; exact hhi
    | delete id =>
      refine ih _ (keysBelowCounter_Delete st id h) ?_
      show (st.Delete id).2.nextID + _ ≤ _
      rw [nextID_Delete]; exact hhi

theorem card_keys_insert_of_not_mem (m : Finmap (fun _ : Int => Student)) (k : Int)
    (s : Student) (h : k ∉ m) : (m.insert k s).keys.card = m.keys.card + 1 := by
  have hk : (m.insert k s).keys = insert k m.keys := by
    ext x
    simp [Finmap.mem_keys, Finmap.mem_insert]
  rw [hk, Finset.card_insert_of_not_mem (by simpa [Finmap.mem_keys] using h)]

theorem erase_insert_of_not_mem (m : Finmap (fun _ : Int => Student)) (k : Int)
    (s : Student) (h : k ∉ m) : (m.insert k s).erase k = m := by
  apply Finmap.ext_lookup
  intro x
  by_cases hx : x = k
  · subst hx
    rw [Finmap.lookup_erase, Finmap.lookup_eq_none.mpr h]
  · rw [Finmap.lookup_erase_ne hx, Finmap.lookup_insert_of_ne _ hx]

/-- An `Add` followed by the `Delete` of the id it returned restores the map and leaves
the counter incremented. -/
theorem add_then_delete (st : StudentStore) (s : Student) (h : st.nextID ∉ st.students) :
    ((st.Add s).2.Delete st.nextID).2
      = { students := st.students, nextID := wrapInt (st.nextID + 1) } := by
  simp [StudentStore.Add, StudentStore.Delete, Finmap.lookup_insert,
    erase_insert_of_not_mem _ _ _ h]

/-- The rounds leave the map as it was; the counter has advanced by their number, the
last increment being allowed to wrap. -/
theorem run_addDeleteRounds (s : Student) (n : Nat) :
    ∀ (st : StudentStore) (c : Int), st.nextID = c → minInt ≤ c →
      c + (n : Int) ≤ maxInt + 1 → (∀ k : Int, k ∈ st.students → k < c) →
      (st.run (addDeleteRounds s c n)).2
        = { students := st.students,
            nextID := if n = 0 then c else wrapInt (c + (n : Int)) } := by
  induction n with
  | zero =>
    intro st c hc _ _ _
    subst hc
    rfl
  | succ n ih =>
    intro st c hc hlo hhi hkeys
    subst hc
    have hfresh : st.nextID ∉ st.students := fun hm => lt_irrefl _ (hkeys _ hm)
    show ((((st.Add s).2.Delete st.nextID).2).run (addDeleteRounds s (st.nextID + 1) n)).2 = _
    rw [add_then_delete st s hfresh]
    push_cast at hhi
    rcases Nat.eq_zero_or_pos n with h0 | hpos
    · subst h0
      simp [addDeleteRounds, StudentStore.run]
    · have hw : wrapInt (st.nextID + 1) = st.nextID + 1 :=
        wrapInt_of_mem_range _ (by omega) (by omega)
      rw [hw, ih _ (st.nextID + 1) rfl (by omega) (by omega)
        (fun k hk => by have := hkeys k hk; omega)]
      have hn : n ≠ 0 := by omega
      simp only [hn, if_false, Nat.succ_ne_zero, Nat.add_eq_zero, one_ne_zero, and_false]
      congr 2
      push_cast
      ring

/-- The shape of the session at two rounds, and the store it reaches. -/
theorem keepOneCalls_two :
    keepOneCalls 2
      = [Op.add johnDoe, Op.add johnDoe, Op.delete 2, Op.add johnDoe, Op.delete 3] ∧
    (NewStudentStore.run (keepOneCalls 2)).2
      = { students := storeWithJohn.students, nextID := 4 } := by
  decide

/-- On a fresh store, the session that keeps id 1 and runs `maxInt - 1` rounds ends with
the map of `storeWithJohn` and the counter wrapped to `minInt`. -/
theorem run_keepOneCalls (n : Nat) (hn : (n : Int) + 2 = maxInt + 1) :
    (NewStudentStore.run (keepOneCalls n)).2
      = { students := storeWithJohn.students, nextID := minInt } := by
  show (storeWithJohn.run (addDeleteRounds johnDoe 2 n)).2 = _
  have hmin : minInt ≤ 2 := by decide
  rw [run_addDeleteRounds johnDoe n storeWithJohn 2 (by decide) hmin (by omega)
    (fun k hk => by
      have hk' : k = 1 ∨ k ∈ (∅ : Finmap (fun _ : Int => Student)) := Finmap.mem_insert.mp hk
      rcases hk' with rfl | h
      · decide
      · exact absurd h (Finmap.not_mem_empty))]
  have hn0 : n ≠ 0 := by
    intro h0
    subst h0
    revert hn
    decide
  have h2 : (2 : Int) + n = maxInt + 1 := by omega
  simp only [hn0, if_false, h2]
  congr 1

/-! ## Handlers -/

/-- Claim C11: for a decoded body, `createStudent` answers 400 exactly when the name is
empty, the age is not positive or the email is empty; otherwise it answers 201 with
`id` equal to the counter before the call, and the store afterwards is the one `Add`
leaves, holding the record under that id. -/
theorem createStudent_response (st : StudentStore) (s : Student) :
    ((createStudent st (some s)).1.status = 400 ↔ (s.Name = "" ∨ s.Age ≤ 0 ∨ s.Email = "")) ∧
    (¬ (s.Name = "" ∨ s.Age ≤ 0 ∨ s.Email = "") →
      (createStudent st (some s)).1
        = { status := 201, body := Body.jsonIntMap [("id", st.nextID)] } ∧
      (createStudent st (some s)).2 = (st.Add s).2 ∧
      (createStudent st (some s)).2.students.lookup st.nextID
        = some { s with ID := st.nextID }) := by
  rw [← invalidFields_eq_true_iff]
  cases hv : invalidFields s with
  | true => simp [createStudent, hv, httpError]
  | false =>
    simp only [createStudent, hv]
    refine ⟨by simp, fun _ => ⟨rfl, rfl, ?_⟩⟩
    exact Finmap.lookup_insert _

theorem createStudent_response_witness :
    (createStudent NewStudentStore (some { johnDoe with Age := 0 })).1.status = 400 ∧
    (createStudent NewStudentStore (some johnDoe)).1
      = { status := 201, body := Body.jsonIntMap [("id", 1)] } ∧
    (createStudent NewStudentStore (some johnDoe)).2.students.lookup 1
      = some { johnDoe with ID := 1 } :=
  ⟨(createStudent_response NewStudentStore { johnDoe with Age := 0 }).1.mpr (by decide),
    ((createStudent_response NewStudentStore johnDoe).2 (by decide)).1,
    ((createStudent_response NewStudentStore johnDoe).2 (by decide)).2.2⟩

/-- Claim C12, as stated, fails for the path variables "0" and "-1": `strconv.Atoi`
parses them and no handler checks the sign, so on an empty store the four handlers
answer 404, not 400. -/
theorem zero_and_negative_ids_parse :
    Atoi "0" = some 0 ∧ Atoi "-1" = some (-1) ∧
    (getStudent NewStudentStore "0").1.status = 404 ∧
    (getStudent NewStudentStore "-1").1.status = 404 ∧
    (updateStudent NewStudentStore "0" (some johnUpdated)).1.status = 404 ∧
    (updateStudent NewStudentStore "-1" (some johnUpdated)).1.status = 404 ∧
    (deleteStudent NewStudentStore "0").1.status = 404 ∧
    (deleteStudent NewStudentStore "-1").1.status = 404 ∧
    (generateSummary NewStudentStore "0").1.status = 404 ∧
    (generateSummary NewStudentStore "-1").1.status = 404 := by
  decide

/-- Claim C12, amended: `getStudent`, `deleteStudent` and `generateSummary` answer 400
exactly when `strconv.Atoi` rejects the path variable, and `updateStudent` answers 400
whenever it does, for every store and every body. -/
theorem bad_request_iff_Atoi_fails (st : StudentStore) (idVar : String)
    (body : Option Student) :
    ((getStudent st idVar).1.status = 400 ↔ Atoi idVar = none) ∧
    ((deleteStudent st idVar).1.status = 400 ↔ Atoi idVar = none) ∧
    ((generateSummary st idVar).1.status = 400 ↔ Atoi idVar = none) ∧
    (Atoi idVar = none → (updateStudent st idVar body).1.status = 400) := by
  cases hid : Atoi idVar with
  | none => simp [getStudent, deleteStudent, generateSummary, updateStudent, hid, httpError]
  | some id =>
    simp only [getStudent, deleteStudent, generateSummary, hid, StudentStore.Get,
      StudentStore.Delete]
    cases st.students.lookup id <;> simp [httpError]

theorem bad_request_iff_Atoi_fails_witness :
    Atoi "abc" = none ∧
    (getStudent storeWithJohn "abc").1.status = 400 ∧
    (deleteStudent storeWithJohn "abc").1.status = 400 ∧
    (generateSummary storeWithJohn "abc").1.status = 400 ∧
    (updateStudent storeWithJohn "abc" (some johnUpdated)).1.status = 400 :=
  ⟨by decide,
    (bad_request_iff_Atoi_fails storeWithJohn "abc" (some johnUpdated)).1.mpr (by decide),
    (bad_request_iff_Atoi_fails storeWithJohn "abc" (some johnUpdated)).2.1.mpr (by decide),
    (bad_request_iff_Atoi_fails storeWithJohn "abc" (some johnUpdated)).2.2.1.mpr (by decide),
    (bad_request_iff_Atoi_fails storeWithJohn "abc" (some johnUpdated)).2.2.2 (by decide)⟩

/-- Claim C13: when the path variable parses to `id`, `updateStudent` with a decoded
body that passes validation answers 200 if `id` is in the store and 404 if it is not;
with a body that fails validation it answers 400 in both cases. -/
theorem updateStudent_status (st : StudentStore) (idVar : String) (id : Int) (s : Student)
    (hid : Atoi idVar = some id) :
    (s.Name ≠ "" ∧ 0 < s.Age ∧ s.Email ≠ "" →
      (id ∈ st.students → (updateStudent st idVar (some s)).1.status = 200) ∧
      (id ∉ st.students → (updateStudent st idVar (some s)).1.status = 404)) ∧
    (s.Name = "" ∨ s.Age ≤ 0 ∨ s.Email = "" →
      (updateStudent st idVar (some s)).1.status = 400) := by
  constructor
  · intro hv
    have hv' := (invalidFields_eq_false_iff s).mpr hv
    constructor
    · intro hm
      obtain ⟨old, hold⟩ := Finmap.mem_iff.mp hm
      simp [updateStudent, hid, hv', StudentStore.Update, hold]
    · intro hm
      simp [updateStudent, hid, hv', StudentStore.Update, Finmap.lookup_eq_none.mpr hm,
        httpError]
  · intro hv
    have hv' := (invalidFields_eq_true_iff s).mpr hv
    simp [updateStudent, hid, hv', httpError]

theorem updateStudent_status_witness :
    Atoi "999" = some 999 ∧ Atoi "1" = some 1 ∧
    (999 : Int) ∉ storeWithJohn.students ∧ (1 : Int) ∈ storeWithJohn.students ∧
    (updateStudent storeWithJohn "999" (some johnUpdated)).1.status = 404 ∧
    (updateStudent storeWithJohn "1" (some johnUpdated)).1.status = 200 ∧
    (updateStudent storeWithJohn "1" (some { johnUpdated with Age := 0 })).1.status = 400 ∧
    (updateStudent storeWithJohn "999" (some { johnUpdated with Age := 0 })).1.status = 400 :=
  ⟨by decide, by decide, by decide, by decide,
    ((updateStudent_status storeWithJohn "999" 999 johnUpdated (by decide)).1
      (by decide)).2 (by decide),
    ((updateStudent_status storeWithJohn "1" 1 johnUpdated (by decide)).1
      (by decide)).1 (by decide),
    (updateStudent_status storeWithJohn "1" 1 { johnUpdated with Age := 0 } (by decide)).2
      (by decide),
    (updateStudent_status storeWithJohn "999" 999 { johnUpdated with Age := 0 }
      (by decide)).2 (by decide)⟩

/-- Claim C14: a request answered with 400 or 404 leaves the store as it was, for
`createStudent`, `updateStudent` and `deleteStudent`; the read handlers `getStudents`,
`getStudent` and `generateSummary` leave the store as it was whatever they answer. -/
theorem failed_request_keeps_store (st : StudentStore) (idVar : String)
    (body : Option Student) :
    (((createStudent st body).1.status = 400 ∨ (createStudent st body).1.status = 404) →
      (createStudent st body).2 = st) ∧
    (((updateStudent st idVar body).1.status = 400 ∨
        (updateStudent st idVar body).1.status = 404) →
      (updateStudent st idVar body).2 = st) ∧
    (((deleteStudent st idVar).1.status = 400 ∨ (deleteStudent st idVar).1.status = 404) →
      (deleteStudent st idVar).2 = st) ∧
    (getStudents st).2 = st ∧
    (getStudent st idVar).2 = st ∧
    (generateSummary st idVar).2 = st := by
  refine ⟨?_, ?_, ?_, rfl, ?_, ?_⟩
  · cases body with
    | none => intro _; rfl
    | some s =>
      cases hv : invalidFields s <;> simp [createStudent, hv, httpError]
  · cases hid : Atoi idVar with
    | none => simp [updateStudent, hid]
    | some id =>
      cases body with
      | none => simp [updateStudent, hid]
      | some s =>
        cases hv : invalidFields s with
        | true => simp [updateStudent, hid, hv]
        | false =>
          cases hl : st.students.lookup id <;>
            simp [updateStudent, hid, hv, StudentStore.Update, hl, httpError]
  · cases hid : Atoi idVar with
    | none => simp [deleteStudent, hid]
    | some id =>
      cases hl : st.students.lookup id <;>
        simp [deleteStudent, hid, StudentStore.Delete, hl, httpError]
  · cases hid : Atoi idVar with
    | none => simp [getStudent, hid]
    | some id =>
      cases hl : st.students.lookup id <;> simp [getStudent, hid, StudentStore.Get, hl]
  · cases hid : Atoi idVar with
    | none => simp [generateSummary, hid]
    | some id =>
      cases hl : st.students.lookup id <;> simp [generateSummary, hid, StudentStore.Get, hl]

theorem failed_request_keeps_store_witness :
    (createStudent storeWithJohn none).1.status = 400 ∧
    (createStudent storeWithJohn none).2 = storeWithJohn ∧
    (updateStudent storeWithJohn "999" (some johnUpdated)).1.status = 404 ∧
    (updateStudent storeWithJohn "999" (some johnUpdated)).2 = storeWithJohn ∧
    (deleteStudent storeWithJohn "x1").1.status = 400 ∧
    (deleteStudent storeWithJohn "x1").2 = storeWithJohn :=
  ⟨by decide,
    (failed_request_keeps_store storeWithJohn "1" none).1 (Or.inl (by decide)),
    by decide,
    (failed_request_keeps_store storeWithJohn "999" (some johnUpdated)).2.1
      (Or.inr (by decide)),
    by decide,
    (failed_request_keeps_store storeWithJohn "x1" none).2.2.1 (Or.inl (by decide))⟩

/-! ## Seeder -/

/-- Claim C16: whatever the three random draws, the generated student passes the field
validation of the handlers: the name and the email are not empty and the age lies
between 18 and 27, so `createStudent` would accept it. -/
theorem generateRandomStudent_valid (i : Fin firstNames.length) (j : Fin lastNames.length)
    (k : Fin 10) :
    invalidFields (generateRandomStudent i j k) = false ∧
    (generateRandomStudent i j k).Name ≠ "" ∧
    (generateRandomStudent i j k).Email ≠ "" ∧
    18 ≤ (generateRandomStudent i j k).Age ∧
    (generateRandomStudent i j k).Age ≤ 27 ∧
    ∀ st : StudentStore,
      (createStudent st (some (generateRandomStudent i j k))).1.status = 201 := by
  have hn : (generateRandomStudent i j k).Name ≠ "" := by
    intro h
    have := congrArg String.length h
    simp [generateRandomStudent, String.length_append] at this
    exact absurd this.1.2 (by decide)
  have he : (generateRandomStudent i j k).Email ≠ "" := by
    intro h
    have := congrArg String.length h
    simp [generateRandomStudent, sprintf_email, String.length_append] at this
    exact absurd this.2 (by decide)
  have ha : 18 ≤ (generateRandomStudent i j k).Age ∧
      (generateRandomStudent i j k).Age ≤ 27 := by
    have := k.isLt
    simp only [generateRandomStudent]
    omega
  have hv : invalidFields (generateRandomStudent i j k) = false :=
    (invalidFields_eq_false_iff _).mpr ⟨hn, by omega, he⟩
  exact ⟨hv, hn, he, ha.1, ha.2, fun st => by simp [createStudent, hv]⟩

/-! ## `GetAll` as written -/

/-- Claim C17: on every store, whatever its map holds, `GetAll` returns the empty slice
and `getStudents` answers with an empty array, leaving the store as it was. -/
theorem GetAll_eq_nil (st : StudentStore) :
    st.GetAll = [] ∧
    getStudents st = ({ status := 200, body := Body.jsonStudents [] }, st) :=
  ⟨rfl, rfl⟩

/-! ## Key range -/

/-- Claim C18, as stated, fails once the counter has wrapped, in a session that never
holds more than two records: on a fresh store, `Add` once (id 1, kept), then `2 ^ 63 - 2`
times `Add` followed by `Delete` of the id just returned. The store reached holds the
single key 1 and its counter is `-2 ^ 63`, so that key is not below the counter; and the
next `Add` stores under `-2 ^ 63`, an id below 1 that `Get` then finds. -/
theorem counter_below_key_after_wrap :
    (NewStudentStore.run (keepOneCalls 9223372036854775806)).2
      = { students := storeWithJohn.students, nextID := -9223372036854775808 } ∧
    (1 : Int) ∈ (NewStudentStore.run (keepOneCalls 9223372036854775806)).2.students ∧
    (NewStudentStore.run (keepOneCalls 9223372036854775806)).2.students.keys.card = 1 ∧
    ¬ ((1 : Int) < (NewStudentStore.run (keepOneCalls 9223372036854775806)).2.nextID) ∧
    (((NewStudentStore.run (keepOneCalls 9223372036854775806)).2.Add johnDoe).2.Get
      (-9223372036854775808)).2 = true := by
  rw [run_keepOneCalls 9223372036854775806 (by decide)]
  decide

/-- Claim C18, amended: in every store reached from a fresh store by a sequence of calls
with fewer than `maxInt` calls of `Add`, every key is at least 1 and below the counter;
hence a further `Add` stores under a key that was not there (one record more, every
record already stored unchanged), and `Get` of an id that is zero or negative reports
not found. -/
theorem reachable_keys_below_counter (ops : List Op) (h : (countAdds ops : Int) < maxInt) :
    (∀ k : Int, k ∈ (NewStudentStore.run ops).2.students →
      1 ≤ k ∧ k < (NewStudentStore.run ops).2.nextID) ∧
    (∀ s : Student,
      ((NewStudentStore.run ops).2.Add s).1 ∉ (NewStudentStore.run ops).2.students ∧
      ((NewStudentStore.run ops).2.Add s).2.students.keys.card
        = (NewStudentStore.run ops).2.students.keys.card + 1 ∧
      ∀ j : Int, j ∈ (NewStudentStore.run ops).2.students →
        ((NewStudentStore.run ops).2.Add s).2.students.lookup j
          = (NewStudentStore.run ops).2.students.lookup j) ∧
    (∀ id : Int, id ≤ 0 → ((NewStudentStore.run ops).2.Get id).2 = false) := by
  have hinv := keysBelowCounter_run ops NewStudentStore keysBelowCounter_new
    (by show (1 : Int) + _ ≤ _; omega)
  generalize (NewStudentStore.run ops).2 = st at hinv ⊢
  have hfresh : st.nextID ∉ st.students := fun hm => by
    have := (hinv.2 _ hm).2
    omega
  refine ⟨hinv.2, fun s => ⟨hfresh, card_keys_insert_of_not_mem _ _ _ hfresh,
    fun j hj => ?_⟩, fun id hid => ?_⟩
  · have hne : j ≠ st.nextID := fun e => hfresh (e ▸ hj)
    exact Finmap.lookup_insert_of_ne _ hne
  · have hnm : id ∉ st.students := fun hm => by
      have := (hinv.2 _ hm).1
      omega
    simp [StudentStore.Get, Finmap.lookup_eq_none.mpr hnm]

theorem reachable_keys_below_counter_witness :
    (countAdds sampleCalls : Int) < maxInt ∧
    (2 : Int) ∈ (NewStudentStore.run sampleCalls).2.students ∧
    ((1 : Int) ≤ 2 ∧ (2 : Int) < (NewStudentStore.run sampleCalls).2.nextID) ∧
    ((NewStudentStore.run sampleCalls).2.Add johnDoe).2.students.keys.card
      = (NewStudentStore.run sampleCalls).2.students.keys.card + 1 ∧
    ((NewStudentStore.run sampleCalls).2.Get 0).2 = false :=
  ⟨by decide, by decide,
    (reachable_keys_below_counter sampleCalls (by decide)).1 2 (by decide),
    ((reachable_keys_below_counter sampleCalls (by decide)).2.1 johnDoe).2.1,
    (reachable_keys_below_counter sampleCalls (by decide)).2.2 0 (by decide)⟩
